import Mathlib

/-!
Verification of the ORACLE prediction-market trading agent (Rust sources under
src/) against its natural-language specification.

Shallow-embedding conventions, used uniformly below:

* Monetary and probability quantities of type rust_decimal::Decimal, and the
  f64 statistical scalars, are modelled as exact rationals.  Division is
  total in this model (x / 0 = 0); in every theorem below the divisors that
  the Rust program reaches are shown (or assumed) nonzero, so no divergence
  from the panicking Rust semantics is exercised.
* Timestamps (chrono DateTime) are modelled as integers (milliseconds).
* String metadata fields that the verified functions never read (question,
  description, url, resolution criteria, reasoning, ...) are omitted from the
  embedded records; fields that are read or copied are kept.
* Rust's stable Vec::sort_by with a descending comparator is modelled by
  Mathlib's List.insertionSort with the corresponding reflexive descending
  relation; insertion sort is a stable sort, which is the semantic contract
  of sort_by.
* The f64 transcendental functions (ln, sqrt) are modelled by Real.log and
  Real.sqrt; definitions that use them return real numbers.
-/

namespace Oracle

/-- Bet direction (types.rs, enum Side). -/
inductive Side where
  | yes
  | no
deriving DecidableEq, Repr

/-- Market category (types.rs, enum MarketCategory). -/
inductive MarketCategory where
  | weather
  | sports
  | economics
  | politics
  | culture
  | other
deriving DecidableEq, Repr

/-- Cross-platform reference probabilities (types.rs, struct CrossReferences). -/
structure CrossReferences where
  metaculus_prob : Option ℚ
  metaculus_forecasters : Option ℕ
  manifold_prob : Option ℚ
  forecastex_price : Option ℚ
deriving DecidableEq, Repr

/-- A prediction market (types.rs, struct Market); string metadata fields that
no verified function reads are omitted. -/
structure Market where
  id : String
  category : MarketCategory
  current_price_yes : ℚ
  current_price_no : ℚ
  volume_24h : ℚ
  liquidity : ℚ
  cross_refs : CrossReferences
deriving DecidableEq, Repr

/-- LLM probability estimate (types.rs, struct Estimate); the reasoning text,
token count and cost are never read by the strategy functions and are
omitted. -/
structure Estimate where
  probability : ℚ
  confidence : ℚ
deriving DecidableEq, Repr

/-- Agent lifecycle status (types.rs, enum AgentStatus). -/
inductive AgentStatus where
  | alive
  | died
  | paused
deriving DecidableEq, Repr

/-- Persistent agent state (types.rs, struct AgentState); start_time is kept
as an integer timestamp. -/
structure AgentState where
  bankroll : ℚ
  total_pnl : ℚ
  cycle_count : ℕ
  trades_placed : ℕ
  trades_won : ℕ
  trades_lost : ℕ
  total_api_costs : ℚ
  total_ib_commissions : ℚ
  start_time : ℤ
  peak_bankroll : ℚ
  status : AgentStatus
deriving DecidableEq, Repr

namespace AgentState

/-- AgentState::new (types.rs): fresh state with the given initial bankroll. -/
def new (initial_bankroll : ℚ) (start_time : ℤ) : AgentState where
  bankroll := initial_bankroll
  total_pnl := 0
  cycle_count := 0
  trades_placed := 0
  trades_won := 0
  trades_lost := 0
  total_api_costs := 0
  total_ib_commissions := 0
  start_time := start_time
  peak_bankroll := initial_bankroll
  status := .alive

/-- AgentState::is_alive (types.rs). -/
def is_alive (s : AgentState) : Bool :=
  s.status = AgentStatus.alive

/-- AgentState::update_peak (types.rs): raise the peak if the bankroll
exceeds it. -/
def update_peak (s : AgentState) : AgentState :=
  if s.peak_bankroll < s.bankroll then { s with peak_bankroll := s.bankroll } else s

/-- AgentState::deduct_cost (types.rs): subtract costs from the bankroll,
track the totals, and mark the agent dead when the bankroll drops to or
below zero.  Returns the new state together with the boolean the Rust
method returns (false when the agent has died). -/
def deduct_cost (s : AgentState) (api_cost ib_commission : ℚ) : AgentState × Bool :=
  let s' := { s with
    total_api_costs := s.total_api_costs + api_cost
    total_ib_commissions := s.total_ib_commissions + ib_commission
    bankroll := s.bankroll - (api_cost + ib_commission) }
  if s'.bankroll ≤ 0 then ({ s' with status := .died }, false) else (s', true)

/-- AgentState::record_resolution (types.rs): apply a resolved trade's pnl to
the bankroll and totals, bump the win/loss counter, and update the peak.
No survival check is performed here. -/
def record_resolution (s : AgentState) (pnl : ℚ) (won : Bool) : AgentState :=
  let s' := { s with
    total_pnl := s.total_pnl + pnl
    bankroll := s.bankroll + pnl }
  let s'' := if won then { s' with trades_won := s'.trades_won + 1 }
             else { s' with trades_lost := s'.trades_lost + 1 }
  s''.update_peak

end AgentState

/-- AgentState invariants as stated by the specification: a non-positive
bankroll forces status Died, and the peak bankroll dominates the bankroll. -/
def stateInvariants (s : AgentState) : Prop :=
  (s.bankroll ≤ 0 → s.status = AgentStatus.died) ∧ s.bankroll ≤ s.peak_bankroll

instance (s : AgentState) : Decidable (stateInvariants s) := by
  unfold stateInvariants; infer_instance

/-- Edge-detection configuration (strategy/edge.rs, struct EdgeConfig). -/
structure EdgeConfig where
  weather_threshold : ℚ
  sports_threshold : ℚ
  economics_threshold : ℚ
  politics_threshold : ℚ
  culture_threshold : ℚ
  other_threshold : ℚ
  min_edge : ℚ
deriving DecidableEq, Repr

namespace EdgeConfig

/-- EdgeConfig::default (strategy/edge.rs). -/
def default : EdgeConfig where
  weather_threshold := 6/100
  sports_threshold := 8/100
  economics_threshold := 10/100
  politics_threshold := 12/100
  culture_threshold := 10/100
  other_threshold := 10/100
  min_edge := 3/100

/-- EdgeConfig::threshold_for (strategy/edge.rs). -/
def threshold_for (cfg : EdgeConfig) (category : MarketCategory) : ℚ :=
  match category with
  | .weather => cfg.weather_threshold
  | .sports => cfg.sports_threshold
  | .economics => cfg.economics_threshold
  | .politics => cfg.politics_threshold
  | .culture => cfg.culture_threshold
  | .other => cfg.other_threshold

end EdgeConfig

/-- Detected mispricing (strategy/edge.rs, struct Edge). -/
structure Edge where
  market : Market
  estimate : Estimate
  side : Side
  edge : ℚ
  signed_edge : ℚ
deriving DecidableEq, Repr

/-- EdgeDetector::detect_edge (strategy/edge.rs): check one market for an
actionable mispricing, translating the early-return chain into nested
conditionals. -/
def detect_edge (cfg : EdgeConfig) (market : Market) (estimate : Estimate) : Option Edge :=
  let threshold := cfg.threshold_for market.category
  let market_price := market.current_price_yes
  let fair_value := estimate.probability
  let signed_edge := fair_value - market_price
  let abs_edge := |signed_edge|
  if abs_edge < cfg.min_edge then none
  else if abs_edge < threshold then none
  else if estimate.confidence < 3/10 ∧ abs_edge < threshold * 2 then none
  else
    let side := if 0 < signed_edge then Side.yes else Side.no
    some { market := market, estimate := estimate, side := side,
           edge := abs_edge, signed_edge := signed_edge }

/-- Descending order on detected edges: a precedes b when a's absolute edge
is at least b's.  This is the relation realising Rust's stable
sort_by(b.edge.cmp(a.edge)) in strategy/edge.rs. -/
def edgeGE (a b : Edge) : Prop := b.edge ≤ a.edge

instance : DecidableRel edgeGE := fun a b => inferInstanceAs (Decidable (b.edge ≤ a.edge))

instance : IsTotal Edge edgeGE := ⟨fun a b => le_total b.edge a.edge⟩

instance : IsTrans Edge edgeGE := ⟨fun _ _ _ h₁ h₂ => le_trans h₂ h₁⟩

/-- EdgeDetector::find_edges (strategy/edge.rs): collect the detected edges
in input order, then stable-sort them by descending absolute edge. -/
def find_edges (cfg : EdgeConfig) (estimates : List (Market × Estimate)) : List Edge :=
  List.insertionSort edgeGE
    (estimates.filterMap fun me => detect_edge cfg me.1 me.2)

/-- Kelly sizing configuration (strategy/kelly.rs, struct KellyConfig). -/
structure KellyConfig where
  multiplier : ℚ
  max_bet_pct : ℚ
  min_bet_size : ℚ
  commission_per_trade : ℚ
deriving DecidableEq, Repr

/-- KellyConfig::default (strategy/kelly.rs). -/
def KellyConfig.default : KellyConfig where
  multiplier := 1/4
  max_bet_pct := 6/100
  min_bet_size := 1
  commission_per_trade := 1/2

/-- Sized bet recommendation (strategy/kelly.rs, struct SizedBet). -/
structure SizedBet where
  edge : Edge
  kelly_fraction : ℚ
  bet_fraction : ℚ
  bet_amount : ℚ
  expected_value : ℚ
deriving DecidableEq, Repr

/-- KellyCalculator::size_bet (strategy/kelly.rs): fractional-Kelly sizing of
a detected edge against the bankroll, with commission folded into the
effective price. -/
def size_bet (cfg : KellyConfig) (edge : Edge) (bankroll : ℚ) : Option SizedBet :=
  if bankroll ≤ 0 then none
  else
    let wp := match edge.side with
      | .yes => (edge.estimate.probability, edge.market.current_price_yes)
      | .no => (1 - edge.estimate.probability, edge.market.current_price_no)
    let win_prob := wp.1
    let market_price := wp.2
    let effective_price := min (market_price + cfg.commission_per_trade / bankroll) (99/100)
    let payout := (1 - effective_price) / effective_price
    if payout ≤ 0 then none
    else
      let lose_prob := 1 - win_prob
      let kelly := (payout * win_prob - lose_prob) / payout
      if kelly ≤ 0 then none
      else
        let fractional := kelly * cfg.multiplier
        let capped := min fractional cfg.max_bet_pct
        let bet_amount := max (capped * bankroll) 0
        if bet_amount < cfg.min_bet_size then none
        else
          some { edge := edge, kelly_fraction := kelly, bet_fraction := capped,
                 bet_amount := bet_amount, expected_value := edge.edge * bet_amount }

/-- Risk-management configuration (strategy/risk.rs, struct RiskConfig). -/
structure RiskConfig where
  max_exposure_pct : ℚ
  max_category_exposure_pct : ℚ
  max_positions : ℕ
  max_bets_per_cycle : ℕ
  drawdown_warning_pct : ℚ
  drawdown_halt_pct : ℚ
deriving DecidableEq, Repr

/-- RiskConfig::default (strategy/risk.rs). -/
def RiskConfig.default : RiskConfig where
  max_exposure_pct := 6/10
  max_category_exposure_pct := 25/100
  max_positions := 20
  max_bets_per_cycle := 5
  drawdown_warning_pct := 2/10
  drawdown_halt_pct := 4/10

/-- Rejection reason (strategy/risk.rs, enum RejectionReason). -/
inductive RejectionReason where
  | exposureLimitExceeded (current limit : ℚ)
  | categoryLimitExceeded (category : MarketCategory) (current limit : ℚ)
  | maxPositionsReached (current limit : ℕ)
  | maxBetsPerCycleReached (current limit : ℕ)
  | drawdownHalt (drawdown_pct : ℚ)
deriving DecidableEq, Repr

/-- Mutable risk-manager state (strategy/risk.rs, struct RiskManager minus its
config, which is passed separately).  The category-exposure HashMap is
modelled as a total function defaulting to zero, matching the source's
get().copied().unwrap_or(ZERO) reads and entry().or_insert(ZERO) writes. -/
structure RiskManager where
  category_exposure : MarketCategory → ℚ
  total_exposure : ℚ
  position_count : ℕ
  cycle_bets : ℕ

namespace RiskManager

/-- RiskManager::new (strategy/risk.rs). -/
def new : RiskManager where
  category_exposure := fun _ => 0
  total_exposure := 0
  position_count := 0
  cycle_bets := 0

/-- RiskManager::reset_cycle (strategy/risk.rs). -/
def reset_cycle (rm : RiskManager) : RiskManager :=
  { rm with cycle_bets := 0 }

/-- RiskManager::drawdown_from_peak (strategy/risk.rs). -/
def drawdown_from_peak (state : AgentState) : ℚ :=
  if state.peak_bankroll ≤ 0 then 0
  else max (1 - state.bankroll / state.peak_bankroll) 0

/-- RiskManager::drawdown_adjust (strategy/risk.rs): taper the bet size with
the current drawdown. -/
def drawdown_adjust (cfg : RiskConfig) (amount drawdown : ℚ) : ℚ :=
  if drawdown ≤ 0 then amount
  else
    let warning := cfg.drawdown_warning_pct
    if warning ≤ drawdown then
      let halt := cfg.drawdown_halt_pct
      let frac := min (max ((halt - drawdown) / (halt - warning)) 0) 1
      amount * (1/10 + 4/10 * frac)
    else
      amount * (1 - drawdown / warning * (1/2))

/-- RiskManager::approve (strategy/risk.rs): run the ordered battery of risk
checks and, on success, return the drawdown-adjusted amount. -/
def approve (cfg : RiskConfig) (rm : RiskManager) (bet : SizedBet)
    (state : AgentState) : Except RejectionReason ℚ :=
  let bankroll := state.bankroll
  let drawdown := drawdown_from_peak state
  if cfg.drawdown_halt_pct ≤ drawdown then
    .error (.drawdownHalt (drawdown * 100))
  else if cfg.max_positions ≤ rm.position_count then
    .error (.maxPositionsReached rm.position_count cfg.max_positions)
  else if cfg.max_bets_per_cycle ≤ rm.cycle_bets then
    .error (.maxBetsPerCycleReached rm.cycle_bets cfg.max_bets_per_cycle)
  else
    let new_total := rm.total_exposure + bet.bet_amount
    let max_exposure := bankroll * cfg.max_exposure_pct
    if max_exposure < new_total then
      .error (.exposureLimitExceeded (new_total / bankroll * 100) (cfg.max_exposure_pct * 100))
    else
      let category := bet.edge.market.category
      let current_cat := rm.category_exposure category
      let new_cat := current_cat + bet.bet_amount
      let max_cat := bankroll * cfg.max_category_exposure_pct
      if max_cat < new_cat then
        .error (.categoryLimitExceeded category (new_cat / bankroll * 100)
          (cfg.max_category_exposure_pct * 100))
      else
        .ok (drawdown_adjust cfg bet.bet_amount drawdown)

/-- RiskManager::record_approval (strategy/risk.rs): fold an approved amount
into the exposure counters. -/
def record_approval (rm : RiskManager) (bet : SizedBet) (amount : ℚ) : RiskManager where
  category_exposure := fun c =>
    if c = bet.edge.market.category then rm.category_exposure c + amount
    else rm.category_exposure c
  total_exposure := rm.total_exposure + amount
  position_count := rm.position_count + 1
  cycle_bets := rm.cycle_bets + 1

end RiskManager

/-- Decision log entry (strategy/mod.rs, enum DecisionRecord). -/
inductive DecisionRecord where
  | selected (bet : SizedBet) (adjusted_amount : ℚ)
  | kellyRejected (edge : Edge)
  | riskRejected (bet : SizedBet) (reason : RejectionReason)
deriving DecidableEq, Repr

/-- Kelly-sizing pass of StrategyOrchestrator::select_bets (strategy/mod.rs,
step 2): size every edge, keeping the sized bets in order and logging a
KellyRejected record for each edge Kelly refuses. -/
def kelly_pass (kcfg : KellyConfig) (bankroll : ℚ) :
    List Edge → List SizedBet × List DecisionRecord
  | [] => ([], [])
  | e :: rest =>
    let tl := kelly_pass kcfg bankroll rest
    match size_bet kcfg e bankroll with
    | some bet => (bet :: tl.1, tl.2)
    | none => (tl.1, .kellyRejected e :: tl.2)

/-- Composite ranking score of StrategyOrchestrator::select_bets (step 3):
expected value times confidence. -/
def rank_score (s : SizedBet) : ℚ := s.expected_value * s.edge.estimate.confidence

/-- Descending order on sized bets by composite score, realising the stable
sort_by in strategy/mod.rs step 3. -/
def scoreGE (a b : SizedBet) : Prop := rank_score b ≤ rank_score a

instance : DecidableRel scoreGE := fun a b => inferInstanceAs (Decidable (rank_score b ≤ rank_score a))

instance : IsTotal SizedBet scoreGE := ⟨fun a b => le_total (rank_score b) (rank_score a)⟩

instance : IsTrans SizedBet scoreGE := ⟨fun _ _ _ h₁ h₂ => le_trans h₂ h₁⟩

/-- Risk-approval pass of StrategyOrchestrator::select_bets (step 4): walk
the ranked bets through the risk manager, collecting approved bets (with the
adjusted amount substituted) and the per-bet decision records. -/
def approve_pass (rcfg : RiskConfig) (state : AgentState) :
    List SizedBet → RiskManager → List SizedBet × List DecisionRecord × RiskManager
  | [], rm => ([], [], rm)
  | bet :: rest, rm =>
    match RiskManager.approve rcfg rm bet state with
    | .ok adjusted_amount =>
      let rm' := rm.record_approval bet adjusted_amount
      let tl := approve_pass rcfg state rest rm'
      let approved := { bet with bet_amount := adjusted_amount }
      (approved :: tl.1, .selected approved adjusted_amount :: tl.2.1, tl.2.2)
    | .error reason =>
      let tl := approve_pass rcfg state rest rm
      (tl.1, .riskRejected bet reason :: tl.2.1, tl.2.2)

/-- Result of a full strategy pass (strategy/mod.rs, select_bets): approved
bets, decision log, and the risk manager's mutated state. -/
structure SelectResult where
  selected : List SizedBet
  decisions : List DecisionRecord
  risk : RiskManager

/-- StrategyOrchestrator::select_bets (strategy/mod.rs): edge detection,
Kelly sizing, ranking by expected value times confidence, then risk
approval in rank order.  The decision log lists the Kelly rejections (from
step 2) followed by the risk-pass records (from step 4), as in the source's
single decisions vector. -/
def select_bets (ecfg : EdgeConfig) (kcfg : KellyConfig) (rcfg : RiskConfig)
    (rm : RiskManager) (estimates : List (Market × Estimate))
    (state : AgentState) : SelectResult :=
  let edges := find_edges ecfg estimates
  let sized := kelly_pass kcfg state.bankroll edges
  let ranked := List.insertionSort scoreGE sized.1
  let approved := approve_pass rcfg state ranked rm
  { selected := approved.1, decisions := sized.2 ++ approved.2.1, risk := approved.2.2 }

/-- A resolved historical market (backtest/runner.rs, struct ResolvedMarket);
the question text is never read and is omitted. -/
structure ResolvedMarket where
  id : String
  category : MarketCategory
  market_price_yes : ℚ
  estimated_probability : ℚ
  confidence : ℚ
  resolved_yes : Bool
  trade_time : ℤ
  resolution_time : ℤ
deriving DecidableEq, Repr

/-- Side chosen by the backtest loop for a resolved market
(backtest/runner.rs, Backtester::run): yes exactly when the signed edge is
positive. -/
def bt_side (m : ResolvedMarket) : Side :=
  if 0 < m.estimated_probability - m.market_price_yes then .yes else .no

/-- Win probability used by the backtest loop on the chosen side
(backtest/runner.rs, Backtester::run). -/
def bt_win_prob (m : ResolvedMarket) : ℚ :=
  match bt_side m with
  | .yes => m.estimated_probability
  | .no => 1 - m.estimated_probability

/-- Market price used by the backtest loop on the chosen side
(backtest/runner.rs, Backtester::run). -/
def bt_market_price (m : ResolvedMarket) : ℚ :=
  match bt_side m with
  | .yes => m.market_price_yes
  | .no => 1 - m.market_price_yes

/-- Inline Kelly sizing of Backtester::run (backtest/runner.rs): the
price-sanity, raw-Kelly, cap and minimum-size gates of the loop body,
returning the bet fraction and amount when a bet survives, none on each of
the loop's continue paths from the price gate through the minimum-size
gate.  The loop's subsequent exposure gate stays in bt_step. -/
def backtest_size (kcfg : KellyConfig) (win_prob market_price bankroll : ℚ) :
    Option (ℚ × ℚ) :=
  if market_price ≤ 0 ∨ 1 ≤ market_price then none
  else
    let payout := (1 - market_price) / market_price
    let lose_prob := 1 - win_prob
    let kelly_raw := (payout * win_prob - lose_prob) / payout
    if kelly_raw ≤ 0 then none
    else
      let kelly_frac := kelly_raw * kcfg.multiplier
      let bet_frac := min kelly_frac kcfg.max_bet_pct
      let bet_amount := max (bet_frac * bankroll) 0
      if bet_amount < kcfg.min_bet_size then none
      else some (bet_frac, bet_amount)

/-- Individual backtest trade (backtest/runner.rs, struct BacktestTrade). -/
structure BacktestTrade where
  market_id : String
  side : Side
  bet_amount : ℚ
  edge : ℚ
  market_price : ℚ
  estimated_prob : ℚ
  resolved_yes : Bool
  pnl : ℚ
  bankroll_after : ℚ
deriving DecidableEq, Repr

/-- Accumulator of the Backtester::run loop (backtest/runner.rs): the local
mutable variables of the function body. -/
structure BtAcc where
  state : AgentState
  trade_log : List BacktestTrade
  balance_entries : List (ℤ × ℚ)
  returns : List ℚ
  brier_sum : ℚ
  peak : ℚ
  max_dd : ℚ
  wins : ℕ
  losses : ℕ
deriving Repr

/-- Loop body of Backtester::run (backtest/runner.rs) for one resolved
market.  The source breaks out of the loop once the agent is no longer
alive; since a dead accumulator is never modified again, the break is
modelled by the leading guard that leaves the accumulator unchanged. -/
def bt_step (ecfg : EdgeConfig) (kcfg : KellyConfig) (rcfg : RiskConfig)
    (acc : BtAcc) (m : ResolvedMarket) : BtAcc :=
  if ¬ acc.state.is_alive then acc
  else
    let signed_edge := m.estimated_probability - m.market_price_yes
    let abs_edge := |signed_edge|
    let side := bt_side m
    let threshold := ecfg.threshold_for m.category
    let outcome : ℚ := if m.resolved_yes then 1 else 0
    if abs_edge < threshold then
      { acc with brier_sum := acc.brier_sum
          + (m.estimated_probability - outcome) * (m.estimated_probability - outcome) }
    else
      match backtest_size kcfg (bt_win_prob m) (bt_market_price m) acc.state.bankroll with
      | none => acc
      | some ba =>
        let bet_amount := ba.2
        if acc.state.bankroll * rcfg.max_exposure_pct < bet_amount then acc
        else
          let payout := (1 - bt_market_price m) / bt_market_price m
          let won := match side with
            | .yes => m.resolved_yes
            | .no => !m.resolved_yes
          let pnl := if won then bet_amount * payout else -bet_amount
          let bankroll' := acc.state.bankroll + pnl
          let trade_return := pnl / max bet_amount (1/100)
          let peak' := if acc.peak < bankroll' then bankroll' else acc.peak
          let dd := if 0 < peak' then 1 - bankroll' / peak' else 0
          let state' := { acc.state with
            bankroll := bankroll'
            total_pnl := acc.state.total_pnl + pnl
            trades_placed := acc.state.trades_placed + 1
            trades_won := if won then acc.state.trades_won + 1 else acc.state.trades_won
            trades_lost := if won then acc.state.trades_lost else acc.state.trades_lost + 1
            status := if bankroll' ≤ 0 then .died else acc.state.status }
          { state := state'
            trade_log := acc.trade_log ++ [{
              market_id := m.id
              side := side
              bet_amount := bet_amount
              edge := abs_edge
              market_price := m.market_price_yes
              estimated_prob := m.estimated_probability
              resolved_yes := m.resolved_yes
              pnl := pnl
              bankroll_after := bankroll' }]
            balance_entries := acc.balance_entries ++ [(m.trade_time, bankroll')]
            returns := acc.returns ++ [trade_return]
            brier_sum := acc.brier_sum
              + (m.estimated_probability - outcome) * (m.estimated_probability - outcome)
            peak := peak'
            max_dd := if acc.max_dd < dd then dd else acc.max_dd
            wins := if won then acc.wins + 1 else acc.wins
            losses := if won then acc.losses else acc.losses + 1 }

/-- Annualised Sharpe quotient of the per-trade returns (backtest/runner.rs,
compute_sharpe); real-valued because of the square roots. -/
noncomputable def compute_sharpe (returns : List ℚ) : ℝ :=
  if returns.length < 2 then 0
  else
    let n : ℝ := returns.length
    let mean := (returns.map fun r => (r : ℝ)).sum / n
    let variance := (returns.map fun r => ((r : ℝ) - mean) ^ 2).sum / (n - 1)
    let std_dev := Real.sqrt variance
    if std_dev < 1 / 10 ^ 10 then 0
    else mean / std_dev * Real.sqrt (250 * 24)

/-- Complete backtest performance report (backtest/runner.rs, struct
BacktestReport). -/
structure BacktestReport where
  initial_bankroll : ℚ
  final_bankroll : ℚ
  total_pnl : ℚ
  return_pct : ℚ
  total_trades : ℕ
  wins : ℕ
  losses : ℕ
  win_rate : ℚ
  brier_score : ℚ
  sharpe : ℝ
  max_drawdown : ℚ
  max_drawdown_pct : ℚ
  peak_bankroll : ℚ
  balance_history : List (ℤ × ℚ)
  trade_log : List BacktestTrade

/-- Backtester::run (backtest/runner.rs): deterministic chronological replay
of resolved markets.  The argument `now` is the wall-clock instant the
source reads with Utc::now(); it seeds the first balance-history entry and
the fresh AgentState's start_time, and nothing else. -/
noncomputable def run (ecfg : EdgeConfig) (kcfg : KellyConfig) (rcfg : RiskConfig)
    (markets : List ResolvedMarket) (initial_bankroll : ℚ) (now : ℤ) : BacktestReport :=
  let acc0 : BtAcc := {
    state := AgentState.new initial_bankroll now
    trade_log := []
    balance_entries := []
    returns := []
    brier_sum := 0
    peak := initial_bankroll
    max_dd := 0
    wins := 0
    losses := 0 }
  let acc := markets.foldl (bt_step ecfg kcfg rcfg) acc0
  let total_trades := acc.trade_log.length
  { initial_bankroll := initial_bankroll
    final_bankroll := acc.state.bankroll
    total_pnl := acc.state.total_pnl
    return_pct := if 0 < initial_bankroll then
        (acc.state.bankroll - initial_bankroll) / initial_bankroll * 100
      else 0
    total_trades := total_trades
    wins := acc.wins
    losses := acc.losses
    win_rate := if 0 < total_trades then (acc.wins : ℚ) / total_trades else 0
    brier_score := if markets ≠ [] then acc.brier_sum / markets.length else 0
    sharpe := compute_sharpe acc.returns
    max_drawdown := acc.max_dd * acc.peak
    max_drawdown_pct := acc.max_dd * 100
    peak_bankroll := acc.peak
    balance_history := (now, initial_bankroll) :: acc.balance_entries
    trade_log := acc.trade_log }

/-- Brier score across all input markets as the specification words it:
the mean over every market, skipped or traded, of the squared difference
between the estimate and the 0/1 outcome.  Written from the spec for
comparison against the score Backtester::run reports. -/
def spec_brier_score (markets : List ResolvedMarket) : ℚ :=
  if markets = [] then 0
  else (markets.map fun m =>
    (m.estimated_probability - (if m.resolved_yes then (1 : ℚ) else 0)) ^ 2).sum
    / markets.length

/-- A prediction-outcome pair (backtest/calibration.rs, struct
CalibrationPoint). -/
structure CalibrationPoint where
  market_id : String
  category : MarketCategory
  estimated_probability : ℚ
  resolved_yes : Bool
deriving DecidableEq, Repr

/-- A calibration-curve bucket (backtest/calibration.rs, struct
CalibrationBucket). -/
structure CalibrationBucket where
  bin_start : ℚ
  bin_end : ℚ
  mean_predicted : ℚ
  actual_rate : ℚ
  count : ℕ
  deviation : ℚ
deriving DecidableEq, Repr

/-- Calibration diagnosis (backtest/calibration.rs, enum
CalibrationDiagnosis). -/
inductive CalibrationDiagnosis where
  | wellCalibrated
  | overConfident
  | underConfident
  | insufficientData
deriving DecidableEq, Repr

/-- Bucket membership test of compute_calibration_curve
(backtest/calibration.rs): the half-open bin, closed on the right for the
final bin. -/
def in_bin (i : ℕ) (p : CalibrationPoint) : Prop :=
  (i : ℚ) / 10 ≤ p.estimated_probability ∧
    (p.estimated_probability < ((i : ℚ) + 1) / 10 ∨
      (i = 9 ∧ p.estimated_probability ≤ ((i : ℚ) + 1) / 10))

instance (i : ℕ) (p : CalibrationPoint) : Decidable (in_bin i p) := by
  unfold in_bin; infer_instance

/-- Calibrator::compute_calibration_curve (backtest/calibration.rs) with the
fixed num_bins = 10 of Calibrator::new. -/
def compute_calibration_curve (points : List CalibrationPoint) : List CalibrationBucket :=
  (List.range 10).map fun (i : ℕ) =>
    let bin_start : ℚ := (i : ℚ) / 10
    let bin_end : ℚ := bin_start + 1 / 10
    let here := points.filter fun p => decide (in_bin i p)
    if here.isEmpty then
      { bin_start := bin_start, bin_end := bin_end,
        mean_predicted := (bin_start + bin_end) / 2, actual_rate := 0,
        count := 0, deviation := 0 }
    else
      let count := here.length
      let mean_predicted := (here.map fun p => p.estimated_probability).sum / count
      let actual_rate := ((here.filter fun p => p.resolved_yes).length : ℚ) / count
      { bin_start := bin_start, bin_end := bin_end,
        mean_predicted := mean_predicted, actual_rate := actual_rate,
        count := count, deviation := |mean_predicted - actual_rate| }

/-- One step of the signal tally of Calibrator::diagnose
(backtest/calibration.rs): skip well-calibrated buckets, then count an
overconfident or underconfident signal in the extreme bands. -/
def tally_step (t : ℕ × ℕ) (b : CalibrationBucket) : ℕ × ℕ :=
  if b.deviation < 5 / 100 then t
  else
    let mid := (b.bin_start + b.bin_end) / 2
    if mid < 3 / 10 then
      if b.mean_predicted < b.actual_rate then (t.1 + 1, t.2) else (t.1, t.2 + 1)
    else if 7 / 10 < mid then
      if b.actual_rate < b.mean_predicted then (t.1 + 1, t.2) else (t.1, t.2 + 1)
    else t

/-- Signal tally of Calibrator::diagnose (backtest/calibration.rs): the two
mutable signal counters folded over the populated buckets. -/
def diagnose_tally (populated : List CalibrationBucket) : ℕ × ℕ :=
  populated.foldl tally_step (0, 0)

/-- Calibrator::diagnose (backtest/calibration.rs). -/
def diagnose (points : List CalibrationPoint) (curve : List CalibrationBucket) :
    CalibrationDiagnosis :=
  let populated := curve.filter fun b => decide (3 ≤ b.count)
  if populated.length < 3 ∨ points.length < 20 then .insufficientData
  else
    let t := diagnose_tally populated
    if t.2 + 1 < t.1 then .overConfident
    else if t.1 + 1 < t.2 then .underConfident
    else .wellCalibrated

/-- Diagnosis field of Calibrator::report (backtest/calibration.rs): an empty
point list short-circuits to InsufficientData, otherwise the diagnosis of
the computed calibration curve.  The report's remaining fields (Brier
scores and the curve itself) do not influence the diagnosis. -/
def report_diagnosis (points : List CalibrationPoint) : CalibrationDiagnosis :=
  if points.isEmpty then .insufficientData
  else diagnose points (compute_calibration_curve points)

/-- MarketRouter::priority_score (engine/scanner.rs): the composite score by
which scan_all sorts its merged market list, translated with the source's
accumulation structure. -/
noncomputable def priority_score (m : Market) : ℝ :=
  let metaculus_bonus : ℝ :=
    if m.cross_refs.metaculus_prob.isSome then
      50 + (match m.cross_refs.metaculus_forecasters with
            | some f => min (f : ℝ) 100 * (1 / 2)
            | none => 0)
    else 0
  let manifold_bonus : ℝ := if m.cross_refs.manifold_prob.isSome then 20 else 0
  let liquidity_score : ℝ := Real.log ((m.liquidity : ℝ) + 1) * 5
  let volume_bonus : ℝ := Real.log ((m.volume_24h : ℝ) + 1) * 3
  let centrality : ℝ := 1 - |2 * ((m.current_price_yes : ℝ) - 1 / 2)|
  metaculus_bonus + manifold_bonus + liquidity_score + volume_bonus + centrality * 10

/-- Priority score exactly as the specification words it: +50 for any
cross-reference, the forecaster bonus unconditionally when a forecaster
count is present, +20 for a manifold cross-reference, the log terms and the
centrality bonus.  Written from the spec for comparison against
priority_score. -/
noncomputable def spec_priority_score (m : Market) : ℝ :=
  (if m.cross_refs.metaculus_prob.isSome ∨ m.cross_refs.manifold_prob.isSome ∨
      m.cross_refs.forecastex_price.isSome then (50 : ℝ) else 0)
  + (match m.cross_refs.metaculus_forecasters with
     | some f => (1 / 2) * min (f : ℝ) 100
     | none => 0)
  + (if m.cross_refs.manifold_prob.isSome then (20 : ℝ) else 0)
  + 5 * Real.log ((m.liquidity : ℝ) + 1) + 3 * Real.log ((m.volume_24h : ℝ) + 1)
  + 10 * (1 - |2 * (m.current_price_yes : ℝ) - 1|)

/-- Priority score with the +50 bonus and the forecaster bonus conditioned on
a metaculus cross-reference, as the source actually computes it; written
flat for the corrected claim. -/
noncomputable def metaculus_gated_score (m : Market) : ℝ :=
  (if m.cross_refs.metaculus_prob.isSome then (50 : ℝ) else 0)
  + (if m.cross_refs.metaculus_prob.isSome then
      (match m.cross_refs.metaculus_forecasters with
       | some f => (1 / 2) * min (f : ℝ) 100
       | none => 0)
     else 0)
  + (if m.cross_refs.manifold_prob.isSome then (20 : ℝ) else 0)
  + 5 * Real.log ((m.liquidity : ℝ) + 1) + 3 * Real.log ((m.volume_24h : ℝ) + 1)
  + 10 * (1 - |2 * (m.current_price_yes : ℝ) - 1|)

/-- Single-market edge decision exactly as the specification words it: keep a
pair when the absolute edge reaches the noise floor and the category
threshold, and twice the threshold under low confidence; the side is yes
exactly when the signed edge is positive.  Written from the spec for
comparison against detect_edge. -/
def spec_detect (cfg : EdgeConfig) (market : Market) (estimate : Estimate) : Option Edge :=
  let signed_edge := estimate.probability - market.current_price_yes
  let abs_edge := |signed_edge|
  let threshold := cfg.threshold_for market.category
  if cfg.min_edge ≤ abs_edge ∧ threshold ≤ abs_edge ∧
      (estimate.confidence < 3/10 → 2 * threshold ≤ abs_edge) then
    some { market := market, estimate := estimate,
           side := if 0 < signed_edge then .yes else .no,
           edge := abs_edge, signed_edge := signed_edge }
  else none

/-- Win probability formula of KellyCalculator::size_bet on the bet side
(strategy/kelly.rs). -/
def kelly_win_prob (e : Edge) : ℚ :=
  match e.side with
  | .yes => e.estimate.probability
  | .no => 1 - e.estimate.probability

/-- Market price taken by KellyCalculator::size_bet from the bet side
(strategy/kelly.rs). -/
def kelly_market_price (e : Edge) : ℚ :=
  match e.side with
  | .yes => e.market.current_price_yes
  | .no => e.market.current_price_no

/-- Commission-adjusted effective price of KellyCalculator::size_bet, in the
formula orientation the specification uses. -/
def spec_effective_price (cfg : KellyConfig) (e : Edge) (bankroll : ℚ) : ℚ :=
  min (99/100) (kelly_market_price e + cfg.commission_per_trade / bankroll)

/-- Payout formula b = (1 - effective_price) / effective_price of
KellyCalculator::size_bet. -/
def spec_payout (cfg : KellyConfig) (e : Edge) (bankroll : ℚ) : ℚ :=
  (1 - spec_effective_price cfg e bankroll) / spec_effective_price cfg e bankroll

/-- Raw Kelly formula of KellyCalculator::size_bet on the effective price. -/
def spec_kelly_fraction (cfg : KellyConfig) (e : Edge) (bankroll : ℚ) : ℚ :=
  (spec_payout cfg e bankroll * kelly_win_prob e - (1 - kelly_win_prob e))
    / spec_payout cfg e bankroll

/-- Capped fractional-Kelly bet fraction of KellyCalculator::size_bet. -/
def spec_capped_fraction (cfg : KellyConfig) (e : Edge) (bankroll : ℚ) : ℚ :=
  min (spec_kelly_fraction cfg e bankroll * cfg.multiplier) cfg.max_bet_pct

/-- Edge corresponding to a resolved backtest market, as live execution would
see it: the side chosen by the sign of the edge, the no-price the
complement of the yes-price, and the estimate carried over.  Used to compare
the backtest's inline sizing against KellyCalculator::size_bet. -/
def edge_of_resolved (m : ResolvedMarket) : Edge :=
  let signed_edge := m.estimated_probability - m.market_price_yes
  { market := {
      id := m.id
      category := m.category
      current_price_yes := m.market_price_yes
      current_price_no := 1 - m.market_price_yes
      volume_24h := 0
      liquidity := 0
      cross_refs := { metaculus_prob := none, metaculus_forecasters := none,
                      manifold_prob := none, forecastex_price := none } }
    estimate := { probability := m.estimated_probability, confidence := m.confidence }
    side := bt_side m
    edge := |signed_edge|
    signed_edge := signed_edge }

/-- Specification's description of an overconfident signal: a significantly
deviating bucket whose low-band actual rate exceeds the prediction or whose
high-band actual rate falls short of it. -/
def over_signal (b : CalibrationBucket) : Prop :=
  5/100 ≤ b.deviation ∧
    ((b.bin_start + b.bin_end) / 2 < 3/10 ∧ b.mean_predicted < b.actual_rate ∨
     7/10 < (b.bin_start + b.bin_end) / 2 ∧ b.actual_rate < b.mean_predicted)

instance (b : CalibrationBucket) : Decidable (over_signal b) := by
  unfold over_signal; infer_instance

/-- Specification's description of an underconfident signal, mirror of
over_signal. -/
def under_signal (b : CalibrationBucket) : Prop :=
  5/100 ≤ b.deviation ∧
    ((b.bin_start + b.bin_end) / 2 < 3/10 ∧ b.actual_rate < b.mean_predicted ∨
     7/10 < (b.bin_start + b.bin_end) / 2 ∧ b.mean_predicted < b.actual_rate)

instance (b : CalibrationBucket) : Decidable (under_signal b) := by
  unfold under_signal; infer_instance

/-- Specification-side count of overconfident signals among the populated
buckets. -/
def spec_over_signals (populated : List CalibrationBucket) : ℕ :=
  (populated.filter fun b => decide (over_signal b)).length

/-- Specification-side count of underconfident signals among the populated
buckets. -/
def spec_under_signals (populated : List CalibrationBucket) : ℕ :=
  (populated.filter fun b => decide (under_signal b)).length

/-- Populated buckets of a calibration curve: those holding at least three
points (backtest/calibration.rs, Calibrator::diagnose). -/
def populated_buckets (points : List CalibrationPoint) : List CalibrationBucket :=
  (compute_calibration_curve points).filter fun b => decide (3 ≤ b.count)

/-- Example edge for exercising size_bet at a concrete input: a Weather
market priced at 40 cents with a 60 percent fair-value estimate. -/
def kelly_example_edge : Edge where
  market := {
    id := "k"
    category := .weather
    current_price_yes := 2/5
    current_price_no := 3/5
    volume_24h := 100
    liquidity := 500
    cross_refs := { metaculus_prob := none, metaculus_forecasters := none,
                    manifold_prob := none, forecastex_price := none } }
  estimate := { probability := 3/5, confidence := 4/5 }
  side := .yes
  edge := 1/5
  signed_edge := 1/5

/-- Example market for exercising the strategy pipeline at a concrete
input. -/
def example_market : Market where
  id := "m"
  category := .weather
  current_price_yes := 2/5
  current_price_no := 3/5
  volume_24h := 1000
  liquidity := 5000
  cross_refs := { metaculus_prob := none, metaculus_forecasters := none,
                  manifold_prob := none, forecastex_price := none }

/-- Example estimate paired with example_market: fair value 60 percent at
confidence 0.8. -/
def example_estimate : Estimate where
  probability := 3/5
  confidence := 4/5

/-- Example agent state: a fresh agent with bankroll 1000. -/
def example_state : AgentState := AgentState.new 1000 0

/-- Resolved Weather market with an 8 percent edge (price 0.40, estimate
0.48) that resolved NO; passes the default 6 percent Weather threshold. -/
def c3_market : ResolvedMarket where
  id := "c3"
  category := .weather
  market_price_yes := 2/5
  estimated_probability := 12/25
  confidence := 4/5
  resolved_yes := false
  trade_time := 0
  resolution_time := 0

/-- Default Kelly configuration with the commission zeroed out. -/
def kelly_nocomm : KellyConfig :=
  { KellyConfig.default with commission_per_trade := 0 }

/-- Resolved Weather market identical in shape to c3_market, used against a
small bankroll for the Brier-score claim. -/
def c4_market : ResolvedMarket where
  id := "c4"
  category := .weather
  market_price_yes := 2/5
  estimated_probability := 12/25
  confidence := 4/5
  resolved_yes := false
  trade_time := 0
  resolution_time := 0

/-- Market with a manifold probability and a forecaster count but no
metaculus probability cross-reference. -/
def manifold_only_market : Market where
  id := "m7"
  category := .other
  current_price_yes := 1/2
  current_price_no := 1/2
  volume_24h := 0
  liquidity := 0
  cross_refs := { metaculus_prob := none, metaculus_forecasters := some 200,
                  manifold_prob := some (1/2), forecastex_price := none }

/-- Twenty-one calibration points spread over three buckets (0.15, 0.55 and
0.85), seven points each. -/
def calib_pts : List CalibrationPoint :=
  [⟨"a", MarketCategory.weather, 3/20, false⟩, ⟨"a", MarketCategory.weather, 3/20, false⟩,
   ⟨"a", MarketCategory.weather, 3/20, false⟩, ⟨"a", MarketCategory.weather, 3/20, false⟩,
   ⟨"a", MarketCategory.weather, 3/20, false⟩, ⟨"a", MarketCategory.weather, 3/20, false⟩,
   ⟨"a", MarketCategory.weather, 3/20, false⟩,
   ⟨"b", MarketCategory.weather, 11/20, true⟩, ⟨"b", MarketCategory.weather, 11/20, true⟩,
   ⟨"b", MarketCategory.weather, 11/20, true⟩, ⟨"b", MarketCategory.weather, 11/20, true⟩,
   ⟨"b", MarketCategory.weather, 11/20, true⟩, ⟨"b", MarketCategory.weather, 11/20, true⟩,
   ⟨"b", MarketCategory.weather, 11/20, true⟩,
   ⟨"c", MarketCategory.weather, 17/20, true⟩, ⟨"c", MarketCategory.weather, 17/20, true⟩,
   ⟨"c", MarketCategory.weather, 17/20, true⟩, ⟨"c", MarketCategory.weather, 17/20, true⟩,
   ⟨"c", MarketCategory.weather, 17/20, true⟩, ⟨"c", MarketCategory.weather, 17/20, true⟩,
   ⟨"c", MarketCategory.weather, 17/20, true⟩]

/-- Replace the start_time the backtest accumulator's agent state carries;
used to isolate the clock input of Backtester::run. -/
def BtAcc.with_start (acc : BtAcc) (t : ℤ) : BtAcc :=
  { acc with state := { acc.state with start_time := t } }

/-!
Theorems.  Each claim of the review is settled by exactly one theorem below,
with a closed witness or counterexample where required.
-/

/-- C10: for every edge and every non-positive bankroll, size_bet returns
none — no bet is ever sized against a zero or negative bankroll. -/
theorem size_bet_none_of_bankroll_nonpos (cfg : KellyConfig) (e : Edge)
    (bankroll : ℚ) (h : bankroll ≤ 0) : size_bet cfg e bankroll = none := by
  unfold size_bet
  simp [h]

/-- Witness for C10 at bankroll zero with the default configuration. -/
theorem size_bet_none_of_bankroll_nonpos_witness :
    size_bet KellyConfig.default kelly_example_edge 0 = none :=
  size_bet_none_of_bankroll_nonpos KellyConfig.default kelly_example_edge 0 le_rfl

/-- Bankroll after record_resolution: the pnl is added. -/
theorem record_resolution_bankroll (s : AgentState) (pnl : ℚ) (won : Bool) :
    (s.record_resolution pnl won).bankroll = s.bankroll + pnl := by
  cases won <;>
    simp [AgentState.record_resolution, AgentState.update_peak,
      apply_ite AgentState.bankroll]

/-- Peak after record_resolution: the maximum of the old peak and the new
bankroll. -/
theorem record_resolution_peak (s : AgentState) (pnl : ℚ) (won : Bool) :
    (s.record_resolution pnl won).peak_bankroll =
      max s.peak_bankroll (s.bankroll + pnl) := by
  cases won <;>
    (simp [AgentState.record_resolution, AgentState.update_peak,
       apply_ite AgentState.peak_bankroll]
     split_ifs with h
     · exact (max_eq_right h.le).symm
     · exact (max_eq_left (not_lt.mp h)).symm)

/-- Status after record_resolution: unchanged. -/
theorem record_resolution_status (s : AgentState) (pnl : ℚ) (won : Bool) :
    (s.record_resolution pnl won).status = s.status := by
  cases won <;>
    simp [AgentState.record_resolution, AgentState.update_peak,
      apply_ite AgentState.status]

/-- C1 counterexample: the claim fails on record_resolution.  From a state
satisfying both invariants (bankroll 10, peak 10, alive), resolving a trade
with pnl -15 leaves bankroll -5 with status still Alive: record_resolution
performs no survival check, so the invariant bankroll ≤ 0 → Died is
violated. -/
theorem record_resolution_breaks_invariants :
    stateInvariants (AgentState.new 10 0) ∧
      ¬ stateInvariants ((AgentState.new 10 0).record_resolution (-15) false) := by
  constructor
  · constructor
    · intro h
      exact absurd h (by norm_num [AgentState.new])
    · norm_num [AgentState.new]
  · intro h
    have hb : ((AgentState.new 10 0).record_resolution (-15) false).bankroll ≤ 0 := by
      rw [record_resolution_bankroll]
      norm_num [AgentState.new]
    have hs := h.1 hb
    rw [record_resolution_status] at hs
    simp [AgentState.new] at hs

/-- C1 as amended: deduct_cost with non-negative costs preserves both
AgentState invariants; record_resolution always preserves the peak
invariant, but preserves the status invariant only when the resulting
bankroll stays positive (it performs no survival check). -/
theorem agent_state_invariants_amended (s : AgentState) (api_cost ib_commission pnl : ℚ)
    (won : Bool) (hinv : stateInvariants s) (hapi : 0 ≤ api_cost)
    (hib : 0 ≤ ib_commission) :
    stateInvariants (s.deduct_cost api_cost ib_commission).1 ∧
      (s.record_resolution pnl won).bankroll ≤ (s.record_resolution pnl won).peak_bankroll ∧
      (0 < s.bankroll + pnl → stateInvariants (s.record_resolution pnl won)) := by
  obtain ⟨hstat, hpeak⟩ := hinv
  refine ⟨?_, ?_, ?_⟩
  · unfold AgentState.deduct_cost stateInvariants
    dsimp only
    split_ifs with h
    · exact ⟨fun _ => rfl, by dsimp only; linarith⟩
    · exact ⟨fun hle => absurd hle h, by dsimp only; linarith⟩
  · rw [record_resolution_bankroll, record_resolution_peak]
    exact le_max_right _ _
  · intro hpos
    constructor
    · rw [record_resolution_bankroll]
      intro hle
      exact absurd hle (by linarith)
    · rw [record_resolution_bankroll, record_resolution_peak]
      exact le_max_right _ _

/-- Witness for C1's amended theorem at a concrete state: bankroll 100,
costs 1 and 2, a winning resolution of +5. -/
theorem agent_state_invariants_amended_witness :
    stateInvariants ((AgentState.new 100 0).deduct_cost 1 2).1 ∧
      ((AgentState.new 100 0).record_resolution 5 true).bankroll ≤
        ((AgentState.new 100 0).record_resolution 5 true).peak_bankroll ∧
      (0 < (AgentState.new 100 0).bankroll + 5 →
        stateInvariants ((AgentState.new 100 0).record_resolution 5 true)) :=
  agent_state_invariants_amended (AgentState.new 100 0) 1 2 5 true (by decide)
    (by norm_num) (by norm_num)

/-- Inequality between a max-with-zero and a positive bound reduces to the
inequality on the left argument. -/
theorem max_zero_lt_iff {x m : ℚ} (hm : 0 < m) : max x 0 < m ↔ x < m := by
  rw [max_lt_iff]
  exact ⟨fun h => h.1, fun h => ⟨h, hm⟩⟩

/-- C5: full characterisation of KellyCalculator::size_bet for a positive
bankroll (and a positive configured minimum bet size, as in the default
configuration): the effective price, payout, raw Kelly fraction and capped
fraction are the specification's formulas; the call returns none exactly
when the payout is non-positive, the raw Kelly fraction is non-positive, or
the capped amount falls below the minimum bet size; and on success the
returned SizedBet carries exactly the specified fields, with
expected_value = abs_edge times the bet amount. -/
theorem size_bet_characterization (cfg : KellyConfig) (e : Edge) (bankroll : ℚ)
    (hb : 0 < bankroll) (hmin : 0 < cfg.min_bet_size) :
    (size_bet cfg e bankroll = none ↔
      spec_payout cfg e bankroll ≤ 0 ∨ spec_kelly_fraction cfg e bankroll ≤ 0 ∨
        spec_capped_fraction cfg e bankroll * bankroll < cfg.min_bet_size) ∧
    ∀ s, size_bet cfg e bankroll = some s →
      s.edge = e ∧ s.kelly_fraction = spec_kelly_fraction cfg e bankroll ∧
      s.bet_fraction = spec_capped_fraction cfg e bankroll ∧
      s.bet_amount = spec_capped_fraction cfg e bankroll * bankroll ∧
      s.expected_value = e.edge * (spec_capped_fraction cfg e bankroll * bankroll) := by
  have hnb : ¬ bankroll ≤ 0 := not_le.mpr hb
  have hwp : (match e.side with
      | Side.yes => (e.estimate.probability, e.market.current_price_yes)
      | Side.no => (1 - e.estimate.probability, e.market.current_price_no))
      = (kelly_win_prob e, kelly_market_price e) := by
    unfold kelly_win_prob kelly_market_price
    cases e.side <;> rfl
  have hpay : (1 - min (99/100) (kelly_market_price e + cfg.commission_per_trade / bankroll))
      / min (99/100) (kelly_market_price e + cfg.commission_per_trade / bankroll)
      = spec_payout cfg e bankroll := rfl
  have hkf : (spec_payout cfg e bankroll * kelly_win_prob e - (1 - kelly_win_prob e))
      / spec_payout cfg e bankroll = spec_kelly_fraction cfg e bankroll := rfl
  have hcf : min (spec_kelly_fraction cfg e bankroll * cfg.multiplier) cfg.max_bet_pct
      = spec_capped_fraction cfg e bankroll := rfl
  unfold size_bet
  rw [if_neg hnb, hwp]
  dsimp only
  rw [min_comm (kelly_market_price e + cfg.commission_per_trade / bankroll) (99/100)]
  rw [hpay, hkf, hcf]
  split_ifs with h1 h2 h3
  · exact ⟨⟨fun _ => Or.inl h1, fun _ => rfl⟩, fun s hs => by cases hs⟩
  · exact ⟨⟨fun _ => Or.inr (Or.inl h2), fun _ => rfl⟩, fun s hs => by cases hs⟩
  · exact ⟨⟨fun _ => Or.inr (Or.inr ((max_zero_lt_iff hmin).mp h3)), fun _ => rfl⟩,
      fun s hs => by cases hs⟩
  · have hx : 0 ≤ spec_capped_fraction cfg e bankroll * bankroll := by
      by_contra hneg
      push_neg at hneg
      exact h3 (by
        rw [max_eq_right hneg.le]
        exact hmin)
    have hmax : max (spec_capped_fraction cfg e bankroll * bankroll) 0
        = spec_capped_fraction cfg e bankroll * bankroll := max_eq_left hx
    constructor
    · constructor
      · intro hcontra
        exact absurd hcontra (by simp)
      · intro hdisj
        rcases hdisj with h | h | h
        · exact absurd h h1
        · exact absurd h h2
        · exact absurd ((max_zero_lt_iff hmin).mpr h) h3
    · intro s hs
      injection hs with hs
      subst hs
      exact ⟨rfl, rfl, rfl, hmax, by rw [hmax]⟩

/-- Witness for C5 at the default configuration, a 40-cent Weather market
with fair value 60 percent, and a 1000 bankroll. -/
theorem size_bet_characterization_witness :
    (size_bet KellyConfig.default kelly_example_edge 1000 = none ↔
      spec_payout KellyConfig.default kelly_example_edge 1000 ≤ 0 ∨
        spec_kelly_fraction KellyConfig.default kelly_example_edge 1000 ≤ 0 ∨
        spec_capped_fraction KellyConfig.default kelly_example_edge 1000 * 1000 <
          KellyConfig.default.min_bet_size) ∧
    ∀ s, size_bet KellyConfig.default kelly_example_edge 1000 = some s →
      s.edge = kelly_example_edge ∧
      s.kelly_fraction = spec_kelly_fraction KellyConfig.default kelly_example_edge 1000 ∧
      s.bet_fraction = spec_capped_fraction KellyConfig.default kelly_example_edge 1000 ∧
      s.bet_amount = spec_capped_fraction KellyConfig.default kelly_example_edge 1000 * 1000 ∧
      s.expected_value = kelly_example_edge.edge *
        (spec_capped_fraction KellyConfig.default kelly_example_edge 1000 * 1000) :=
  size_bet_characterization KellyConfig.default kelly_example_edge 1000 (by norm_num)
    (by norm_num [KellyConfig.default])

/-- Pointwise agreement of detect_edge with the specification's edge
condition: the early-return chain is the conjunction of the noise-floor,
threshold and low-confidence requirements. -/
theorem detect_edge_eq_spec_detect (cfg : EdgeConfig) (m : Market) (est : Estimate) :
    detect_edge cfg m est = spec_detect cfg m est := by
  unfold detect_edge spec_detect
  dsimp only
  by_cases h1 : |est.probability - m.current_price_yes| < cfg.min_edge
  · rw [if_pos h1, if_neg]
    rintro ⟨ha, -, -⟩
    exact absurd ha (not_le.mpr h1)
  · rw [if_neg h1]
    by_cases h2 : |est.probability - m.current_price_yes| < cfg.threshold_for m.category
    · rw [if_pos h2, if_neg]
      rintro ⟨-, hb, -⟩
      exact absurd hb (not_le.mpr h2)
    · rw [if_neg h2]
      by_cases h3 : est.confidence < 3/10 ∧
          |est.probability - m.current_price_yes| < cfg.threshold_for m.category * 2
      · rw [if_pos h3, if_neg]
        rintro ⟨-, -, hc⟩
        have hcc := hc h3.1
        rw [mul_comm] at hcc
        exact absurd hcc (not_le.mpr h3.2)
      · have hcond : cfg.min_edge ≤ |est.probability - m.current_price_yes| ∧
            cfg.threshold_for m.category ≤ |est.probability - m.current_price_yes| ∧
            (est.confidence < 3/10 →
              2 * cfg.threshold_for m.category ≤ |est.probability - m.current_price_yes|) := by
          refine ⟨not_lt.mp h1, not_lt.mp h2, fun hconf => ?_⟩
          rw [mul_comm]
          exact not_lt.mp (not_and.mp h3 hconf)
        rw [if_neg h3, if_pos hcond]

/-- C6: find_edges returns exactly the pairs passing the noise-floor,
category-threshold and low-confidence requirements, with side yes exactly
when the signed edge is positive (built into the returned Edge), sorted
descending by absolute edge, and stable: within each absolute-edge value
the input order is preserved, stated as the filter at each edge value
coinciding with the input-order filter. -/
theorem find_edges_spec (cfg : EdgeConfig) (estimates : List (Market × Estimate)) :
    List.Perm (find_edges cfg estimates)
      (estimates.filterMap fun me => spec_detect cfg me.1 me.2)
    ∧ (find_edges cfg estimates).Sorted (fun a b => b.edge ≤ a.edge)
    ∧ ∀ q : ℚ, (find_edges cfg estimates).filter (fun e => decide (e.edge = q))
        = (estimates.filterMap fun me => spec_detect cfg me.1 me.2).filter
            (fun e => decide (e.edge = q)) := by
  have hfm : (estimates.filterMap fun me => detect_edge cfg me.1 me.2)
      = estimates.filterMap fun me => spec_detect cfg me.1 me.2 :=
    List.filterMap_congr (fun me _ => detect_edge_eq_spec_detect cfg me.1 me.2)
  unfold find_edges
  rw [hfm]
  refine ⟨List.perm_insertionSort edgeGE _, List.sorted_insertionSort edgeGE _, fun q => ?_⟩
  set l := estimates.filterMap (fun me => spec_detect cfg me.1 me.2) with hl
  set p := fun e : Edge => decide (e.edge = q) with hp
  have hpw : (l.filter p).Pairwise edgeGE := by
    apply List.pairwise_of_forall_mem_list
    intro a ha b hb
    have ha' : a.edge = q := of_decide_eq_true (List.mem_filter.mp ha).2
    have hb' : b.edge = q := of_decide_eq_true (List.mem_filter.mp hb).2
    unfold edgeGE
    rw [ha', hb']
  have hsub : List.Sublist (l.filter p) (List.insertionSort edgeGE l) :=
    List.sublist_insertionSort hpw (List.filter_sublist l)
  have hsub2 : List.Sublist ((l.filter p).filter p)
      ((List.insertionSort edgeGE l).filter p) :=
    hsub.filter p
  have hff : (l.filter p).filter p = l.filter p := by
    rw [List.filter_filter]
    exact List.filter_congr fun a _ => by cases hpa : p a <;> simp [hpa]
  rw [hff] at hsub2
  have hperm : List.Perm ((List.insertionSort edgeGE l).filter p) (l.filter p) :=
    List.Perm.filter p (List.perm_insertionSort edgeGE l)
  exact (hsub2.eq_of_length hperm.length_eq.symm).symm

/-- What a successful risk approval implies: the cycle counter was below the
limit, the exposure check passed, and the returned amount is the
drawdown-adjusted bet amount. -/
theorem approve_ok (rcfg : RiskConfig) (rm : RiskManager) (bet : SizedBet)
    (state : AgentState) (a : ℚ)
    (h : RiskManager.approve rcfg rm bet state = .ok a) :
    rm.cycle_bets < rcfg.max_bets_per_cycle ∧
    rm.total_exposure + bet.bet_amount ≤ state.bankroll * rcfg.max_exposure_pct ∧
    a = RiskManager.drawdown_adjust rcfg bet.bet_amount
        (RiskManager.drawdown_from_peak state) := by
  unfold RiskManager.approve at h
  dsimp only at h
  by_cases c1 : rcfg.drawdown_halt_pct ≤ RiskManager.drawdown_from_peak state
  · rw [if_pos c1] at h
    exact Except.noConfusion h
  · rw [if_neg c1] at h
    by_cases c2 : rcfg.max_positions ≤ rm.position_count
    · rw [if_pos c2] at h
      exact Except.noConfusion h
    · rw [if_neg c2] at h
      by_cases c3 : rcfg.max_bets_per_cycle ≤ rm.cycle_bets
      · rw [if_pos c3] at h
        exact Except.noConfusion h
      · rw [if_neg c3] at h
        by_cases c4 : state.bankroll * rcfg.max_exposure_pct
            < rm.total_exposure + bet.bet_amount
        · rw [if_pos c4] at h
          exact Except.noConfusion h
        · rw [if_neg c4] at h
          by_cases c5 : state.bankroll * rcfg.max_category_exposure_pct
              < rm.category_exposure bet.edge.market.category + bet.bet_amount
          · rw [if_pos c5] at h
            exact Except.noConfusion h
          · rw [if_neg c5] at h
            injection h with h'
            exact ⟨not_le.mp c3, not_lt.mp c4, h'.symm⟩

/-- Drawdown adjustment never increases a non-negative amount (the taper
factor stays at or below one when the warning threshold is positive). -/
theorem drawdown_adjust_le (rcfg : RiskConfig) (amount dd : ℚ) (hamt : 0 ≤ amount)
    (hw : 0 < rcfg.drawdown_warning_pct) :
    RiskManager.drawdown_adjust rcfg amount dd ≤ amount := by
  unfold RiskManager.drawdown_adjust
  dsimp only
  split_ifs with h1 h2
  · exact le_rfl
  · have hfrac : min (max ((rcfg.drawdown_halt_pct - dd)
        / (rcfg.drawdown_halt_pct - rcfg.drawdown_warning_pct)) 0) 1 ≤ 1 :=
      min_le_right _ _
    refine mul_le_of_le_one_right hamt ?_
    nlinarith
  · have hdd : 0 < dd := not_le.mp h1
    have hpos : 0 ≤ dd / rcfg.drawdown_warning_pct * (1/2) := by positivity
    exact mul_le_of_le_one_right hamt (by linarith)

/-- A SizedBet produced by size_bet carries the edge it was sized from. -/
theorem size_bet_edge (cfg : KellyConfig) (e : Edge) (bankroll : ℚ) (s : SizedBet)
    (h : size_bet cfg e bankroll = some s) : s.edge = e := by
  unfold size_bet at h
  dsimp only at h
  split_ifs at h
  all_goals first
    | exact Option.noConfusion h
    | (injection h with h'
       subst h'
       rfl)

/-- A SizedBet produced by size_bet has a non-negative bet amount (the
source clamps the amount at zero). -/
theorem size_bet_amount_nonneg (cfg : KellyConfig) (e : Edge) (bankroll : ℚ)
    (s : SizedBet) (h : size_bet cfg e bankroll = some s) : 0 ≤ s.bet_amount := by
  unfold size_bet at h
  dsimp only at h
  split_ifs at h
  all_goals first
    | exact Option.noConfusion h
    | (injection h with h'
       subst h'
       exact le_max_right _ _)

/-- Every sized bet kept by the Kelly pass is a size_bet output for its own
edge. -/
theorem kelly_pass_mem (kcfg : KellyConfig) (bankroll : ℚ) (edges : List Edge) :
    ∀ b ∈ (kelly_pass kcfg bankroll edges).1,
      size_bet kcfg b.edge bankroll = some b := by
  induction edges with
  | nil =>
    intro b hb
    simp [kelly_pass] at hb
  | cons e rest ih =>
    intro b hb
    rcases hsb : size_bet kcfg e bankroll with _ | bet
    · simp only [kelly_pass, hsb] at hb
      exact ih b hb
    · simp only [kelly_pass, hsb] at hb
      rcases List.mem_cons.mp hb with hhead | htail
      · subst hhead
        rw [size_bet_edge kcfg e bankroll b hsb]
        exact hsb
      · exact ih b htail

/-- Every decision logged by the Kelly pass is a KellyRejected record. -/
theorem kelly_pass_decisions (kcfg : KellyConfig) (bankroll : ℚ) (edges : List Edge) :
    ∀ d ∈ (kelly_pass kcfg bankroll edges).2, ∃ e, d = DecisionRecord.kellyRejected e := by
  induction edges with
  | nil =>
    intro d hd
    simp [kelly_pass] at hd
  | cons e rest ih =>
    intro d hd
    rcases hsb : size_bet kcfg e bankroll with _ | bet
    · simp only [kelly_pass, hsb] at hd
      rcases List.mem_cons.mp hd with hhead | htail
      · exact ⟨e, hhead⟩
      · exact ih d htail
    · simp only [kelly_pass, hsb] at hd
      exact ih d hd

/-- Loop invariants of the risk-approval pass: starting from any risk state,
the exposure counter advances by exactly the sum of the approved (adjusted)
amounts and never beyond the exposure cap, the cycle counter advances by
exactly the number of approved bets and never beyond the per-cycle limit,
and every Selected record stores a drawdown-adjusted copy of some input bet
with the adjusted amount bounded by the original. -/
theorem approve_pass_spec (rcfg : RiskConfig) (state : AgentState)
    (hw : 0 < rcfg.drawdown_warning_pct) :
    ∀ (bets : List SizedBet) (rm : RiskManager),
      (∀ b ∈ bets, 0 ≤ b.bet_amount) →
      (approve_pass rcfg state bets rm).2.2.total_exposure
          = rm.total_exposure
            + (((approve_pass rcfg state bets rm).1.map SizedBet.bet_amount).sum)
      ∧ (approve_pass rcfg state bets rm).2.2.cycle_bets
          = rm.cycle_bets + (approve_pass rcfg state bets rm).1.length
      ∧ (approve_pass rcfg state bets rm).2.2.total_exposure
          ≤ max rm.total_exposure (state.bankroll * rcfg.max_exposure_pct)
      ∧ (approve_pass rcfg state bets rm).2.2.cycle_bets
          ≤ max rm.cycle_bets rcfg.max_bets_per_cycle
      ∧ ∀ d ∈ (approve_pass rcfg state bets rm).2.1, ∀ b a,
          d = DecisionRecord.selected b a →
          ∃ b₀ ∈ bets, b = { b₀ with bet_amount := a } ∧ a ≤ b₀.bet_amount := by
  intro bets
  induction bets with
  | nil =>
    intro rm _
    refine ⟨by simp [approve_pass], by simp [approve_pass],
      by simp [approve_pass], by simp [approve_pass], ?_⟩
    intro d hd
    simp [approve_pass] at hd
  | cons bet rest ih =>
    intro rm hnn
    have hbet : 0 ≤ bet.bet_amount := hnn bet (List.mem_cons_self _ _)
    have hrest : ∀ b ∈ rest, 0 ≤ b.bet_amount :=
      fun b hb => hnn b (List.mem_cons_of_mem _ hb)
    rcases happ : RiskManager.approve rcfg rm bet state with r | a
    · obtain ⟨ih1, ih2, ih3, ih4, ih5⟩ := ih rm hrest
      have hred : approve_pass rcfg state (bet :: rest) rm
          = ((approve_pass rcfg state rest rm).1,
             DecisionRecord.riskRejected bet r :: (approve_pass rcfg state rest rm).2.1,
             (approve_pass rcfg state rest rm).2.2) := by
        simp only [approve_pass, happ]
      rw [hred]
      refine ⟨ih1, ih2, ih3, ih4, ?_⟩
      intro d hd b a hda
      rcases List.mem_cons.mp hd with hhead | htail
      · rw [hhead] at hda
        exact DecisionRecord.noConfusion hda
      · obtain ⟨b₀, hb₀, hb, hle⟩ := ih5 d htail b a hda
        exact ⟨b₀, List.mem_cons_of_mem _ hb₀, hb, hle⟩
    · obtain ⟨hcyc, hexp, hadj⟩ := approve_ok rcfg rm bet state a happ
      have hadj_le : a ≤ bet.bet_amount := by
        rw [hadj]
        exact drawdown_adjust_le rcfg bet.bet_amount _ hbet hw
      obtain ⟨ih1, ih2, ih3, ih4, ih5⟩ := ih (rm.record_approval bet a) hrest
      have hred : approve_pass rcfg state (bet :: rest) rm
          = ({ bet with bet_amount := a }
               :: (approve_pass rcfg state rest (rm.record_approval bet a)).1,
             DecisionRecord.selected { bet with bet_amount := a } a
               :: (approve_pass rcfg state rest (rm.record_approval bet a)).2.1,
             (approve_pass rcfg state rest (rm.record_approval bet a)).2.2) := by
        simp only [approve_pass, happ]
      rw [hred]
      have hrm_exp : (rm.record_approval bet a).total_exposure = rm.total_exposure + a := rfl
      have hrm_cyc : (rm.record_approval bet a).cycle_bets = rm.cycle_bets + 1 := rfl
      refine ⟨?_, ?_, ?_, ?_, ?_⟩
      · rw [ih1, hrm_exp]
        simp only [List.map_cons, List.sum_cons]
        ring
      · rw [ih2, hrm_cyc]
        simp only [List.length_cons]
        omega
      · have hstep : (rm.record_approval bet a).total_exposure
            ≤ state.bankroll * rcfg.max_exposure_pct := by
          rw [hrm_exp]
          linarith
        calc (approve_pass rcfg state rest (rm.record_approval bet a)).2.2.total_exposure
            ≤ max (rm.record_approval bet a).total_exposure
                (state.bankroll * rcfg.max_exposure_pct) := ih3
          _ = state.bankroll * rcfg.max_exposure_pct := max_eq_right hstep
          _ ≤ max rm.total_exposure (state.bankroll * rcfg.max_exposure_pct) :=
              le_max_right _ _
      · dsimp only
        rw [hrm_cyc] at ih4
        omega
      · intro d hd b a' hda
        rcases List.mem_cons.mp hd with hhead | htail
        · rw [hhead] at hda
          injection hda with hb ha'
          subst ha'
          exact ⟨bet, List.mem_cons_self _ _, hb.symm, hadj_le⟩
        · obtain ⟨b₀, hb₀, hb, hle⟩ := ih5 d htail b a' hda
          exact ⟨b₀, List.mem_cons_of_mem _ hb₀, hb, hle⟩

/-- C2: from a risk manager starting its cycle with zero recorded exposure
and a zero cycle-bet counter, select_bets approves at most
max_bets_per_cycle bets, the approved (adjusted) amounts sum to at most
bankroll times max_exposure_pct, and every Selected decision record's
adjusted amount is bounded by the bet amount Kelly sizing produced for that
bet. -/
theorem select_bets_risk_invariants (ecfg : EdgeConfig) (kcfg : KellyConfig)
    (rcfg : RiskConfig) (rm : RiskManager) (estimates : List (Market × Estimate))
    (state : AgentState)
    (hexp : rm.total_exposure = 0) (hcyc : rm.cycle_bets = 0)
    (hB : 0 ≤ state.bankroll) (hpct : 0 ≤ rcfg.max_exposure_pct)
    (hw : 0 < rcfg.drawdown_warning_pct) :
    (select_bets ecfg kcfg rcfg rm estimates state).selected.length
        ≤ rcfg.max_bets_per_cycle
    ∧ (((select_bets ecfg kcfg rcfg rm estimates state).selected.map
          SizedBet.bet_amount).sum) ≤ state.bankroll * rcfg.max_exposure_pct
    ∧ ∀ d ∈ (select_bets ecfg kcfg rcfg rm estimates state).decisions, ∀ b a,
        d = DecisionRecord.selected b a →
        ∃ b₀, size_bet kcfg b₀.edge state.bankroll = some b₀ ∧
          b = { b₀ with bet_amount := a } ∧ a ≤ b₀.bet_amount := by
  have hmem : ∀ b ∈ List.insertionSort scoreGE
      (kelly_pass kcfg state.bankroll (find_edges ecfg estimates)).1,
      size_bet kcfg b.edge state.bankroll = some b := by
    intro b hb
    exact kelly_pass_mem kcfg state.bankroll (find_edges ecfg estimates) b
      ((List.mem_insertionSort scoreGE).mp hb)
  have hnn : ∀ b ∈ List.insertionSort scoreGE
      (kelly_pass kcfg state.bankroll (find_edges ecfg estimates)).1,
      0 ≤ b.bet_amount :=
    fun b hb => size_bet_amount_nonneg kcfg b.edge state.bankroll b (hmem b hb)
  obtain ⟨h1, h2, h3, h4, h5⟩ := approve_pass_spec rcfg state hw
    (List.insertionSort scoreGE
      (kelly_pass kcfg state.bankroll (find_edges ecfg estimates)).1) rm hnn
  have hBpct : 0 ≤ state.bankroll * rcfg.max_exposure_pct := mul_nonneg hB hpct
  unfold select_bets
  dsimp only
  refine ⟨?_, ?_, ?_⟩
  · rw [hcyc] at h2 h4
    omega
  · rw [hexp] at h1 h3
    rw [max_eq_right hBpct] at h3
    linarith
  · intro d hd b a hda
    rcases List.mem_append.mp hd with hleft | hright
    · obtain ⟨e, he⟩ := kelly_pass_decisions kcfg state.bankroll
        (find_edges ecfg estimates) d hleft
      rw [he] at hda
      exact DecisionRecord.noConfusion hda
    · obtain ⟨b₀, hb₀, hb, hle⟩ := h5 d hright b a hda
      exact ⟨b₀, hmem b₀ hb₀, hb, hle⟩

/-- Witness for C2: defaults everywhere, a fresh risk manager, one strong
Weather edge, bankroll 1000. -/
theorem select_bets_risk_invariants_witness :
    (select_bets EdgeConfig.default KellyConfig.default RiskConfig.default
        RiskManager.new [(example_market, example_estimate)] example_state).selected.length
        ≤ RiskConfig.default.max_bets_per_cycle
    ∧ (((select_bets EdgeConfig.default KellyConfig.default RiskConfig.default
          RiskManager.new [(example_market, example_estimate)] example_state).selected.map
          SizedBet.bet_amount).sum)
        ≤ example_state.bankroll * RiskConfig.default.max_exposure_pct
    ∧ ∀ d ∈ (select_bets EdgeConfig.default KellyConfig.default RiskConfig.default
        RiskManager.new [(example_market, example_estimate)] example_state).decisions, ∀ b a,
        d = DecisionRecord.selected b a →
        ∃ b₀, size_bet KellyConfig.default b₀.edge example_state.bankroll = some b₀ ∧
          b = { b₀ with bet_amount := a } ∧ a ≤ b₀.bet_amount :=
  select_bets_risk_invariants EdgeConfig.default KellyConfig.default RiskConfig.default
    RiskManager.new [(example_market, example_estimate)] example_state rfl rfl
    (by norm_num [example_state, AgentState.new])
    (by norm_num [RiskConfig.default])
    (by norm_num [RiskConfig.default])

/-- C3 as amended: the backtest's inline sizing coincides with live
KellyCalculator::size_bet exactly when no commission is configured and the
traded-side price lies in (0, 0.99]; the commission-adjusted effective price
of the live path is absent from the backtest. -/
theorem backtest_size_matches_size_bet (kcfg : KellyConfig) (m : ResolvedMarket)
    (bankroll : ℚ) (hcomm : kcfg.commission_per_trade = 0) (hb : 0 < bankroll)
    (hmp0 : 0 < bt_market_price m) (hmp99 : bt_market_price m ≤ 99/100) :
    backtest_size kcfg (bt_win_prob m) (bt_market_price m) bankroll
      = (size_bet kcfg (edge_of_resolved m) bankroll).map
          (fun s => (s.bet_fraction, s.bet_amount)) := by
  have hwp2 : (match (edge_of_resolved m).side with
      | Side.yes => ((edge_of_resolved m).estimate.probability,
          (edge_of_resolved m).market.current_price_yes)
      | Side.no => (1 - (edge_of_resolved m).estimate.probability,
          (edge_of_resolved m).market.current_price_no))
      = (bt_win_prob m, bt_market_price m) := by
    unfold edge_of_resolved bt_win_prob bt_market_price
    dsimp only
    cases bt_side m <;> rfl
  have hmplt : bt_market_price m < 1 := lt_of_le_of_lt hmp99 (by norm_num)
  have hpay : 0 < (1 - bt_market_price m) / bt_market_price m :=
    div_pos (by linarith) hmp0
  unfold size_bet
  rw [if_neg (not_le.mpr hb), hwp2]
  dsimp only
  rw [hcomm, zero_div, add_zero, min_eq_left hmp99]
  unfold backtest_size
  rw [if_neg (by push_neg; exact ⟨hmp0, by linarith⟩)]
  dsimp only
  rw [if_neg (not_le.mpr hpay)]
  split_ifs with hk hamt
  · rfl
  · rfl
  · rfl

/-- C3 counterexample: with the default commission of 0.50 and bankroll 1000,
the Weather market at price 0.40 with estimate 0.48 passes the edge
threshold, yet the backtest's bet fraction and amount differ from the live
size_bet's (1/30 and 100/3 against 159/4796 and 39750/1199). -/
theorem backtest_size_commission_counterexample :
    EdgeConfig.default.threshold_for c3_market.category
        ≤ |c3_market.estimated_probability - c3_market.market_price_yes| ∧
    backtest_size KellyConfig.default (bt_win_prob c3_market) (bt_market_price c3_market)
        1000
      ≠ (size_bet KellyConfig.default (edge_of_resolved c3_market) 1000).map
          (fun s => (s.bet_fraction, s.bet_amount)) := by
  constructor
  · norm_num [EdgeConfig.default, EdgeConfig.threshold_for, c3_market]
    rw [abs_of_pos] <;> norm_num
  · norm_num [backtest_size, size_bet, edge_of_resolved, c3_market, bt_side,
      bt_win_prob, bt_market_price, KellyConfig.default, Option.map, min_def, max_def]

/-- Witness for C3's amended theorem: the commission-free configuration on
the same market and bankroll. -/
theorem backtest_size_matches_size_bet_witness :
    backtest_size kelly_nocomm (bt_win_prob c3_market) (bt_market_price c3_market) 1000
      = (size_bet kelly_nocomm (edge_of_resolved c3_market) 1000).map
          (fun s => (s.bet_fraction, s.bet_amount)) :=
  backtest_size_matches_size_bet kelly_nocomm c3_market 1000 rfl (by norm_num)
    (by norm_num [bt_market_price, bt_side, c3_market])
    (by norm_num [bt_market_price, bt_side, c3_market])

/-- C4, evaluating the code at the failing input: one Weather market with an
8 percent edge (above threshold) against a bankroll of 10; the Kelly bet
(1/3 dollar) falls below the minimum bet size, the loop skips the market
without adding its Brier term, and the reported score is 0 instead of the
specified (0.48 - 0)^2 = 144/625. -/
theorem backtest_brier_skips_small_bets :
    (run EdgeConfig.default KellyConfig.default RiskConfig.default
        [c4_market] 10 0).brier_score = 0
    ∧ spec_brier_score [c4_market] = 144/625
    ∧ (run EdgeConfig.default KellyConfig.default RiskConfig.default
        [c4_market] 10 0).brier_score ≠ spec_brier_score [c4_market] := by
  have habs : |(2:ℚ)/25| = 2/25 := abs_of_pos (by norm_num)
  have h1 : (run EdgeConfig.default KellyConfig.default RiskConfig.default
      [c4_market] 10 0).brier_score = 0 := by
    norm_num [run, bt_step, backtest_size, bt_win_prob, bt_market_price, bt_side,
      c4_market, AgentState.new, AgentState.is_alive, EdgeConfig.default,
      EdgeConfig.threshold_for, KellyConfig.default, RiskConfig.default,
      habs, min_def, max_def]
  have h2 : spec_brier_score [c4_market] = 144/625 := by
    norm_num [spec_brier_score, c4_market]
  refine ⟨h1, h2, ?_⟩
  rw [h1, h2]
  norm_num

/-- C7 as amended: the priority score equals the flat composite in which the
+50 bonus and the forecaster bonus are conditioned on a metaculus
cross-reference (not on any cross-reference), plus +20 for a manifold
cross-reference, the log-scaled liquidity and volume terms, and the
centrality bonus. -/
theorem priority_score_eq_metaculus_gated (m : Market) :
    priority_score m = metaculus_gated_score m := by
  unfold priority_score metaculus_gated_score
  dsimp only
  have hc : 2 * ((m.current_price_yes : ℝ) - 1/2) = 2 * (m.current_price_yes : ℝ) - 1 := by
    ring
  rw [hc]
  rcases hmp : m.cross_refs.metaculus_prob with _ | p <;>
    rcases hfc : m.cross_refs.metaculus_forecasters with _ | f <;>
      simp [hmp, hfc] <;> ring

/-- C7 counterexample: on a market with a manifold probability and a
200-strong forecaster count but no metaculus probability, the
specification's formula (+50 for any cross-reference, the forecaster bonus
unconditionally) gives 130, while the computed priority score grants both
the +50 and the forecaster bonus only for a metaculus probability
cross-reference and scores 30 at price 0.50 with zero liquidity and
volume. -/
theorem priority_score_counterexample :
    spec_priority_score manifold_only_market ≠ priority_score manifold_only_market := by
  unfold spec_priority_score priority_score manifold_only_market
  norm_num [Real.log_one, min_def]

/-- Every populated bucket of a computed calibration curve records as its
deviation the absolute gap between its mean prediction and actual rate. -/
theorem curve_bucket_deviation (points : List CalibrationPoint)
    (b : CalibrationBucket) (hb : b ∈ compute_calibration_curve points)
    (hc : 3 ≤ b.count) : b.deviation = |b.mean_predicted - b.actual_rate| := by
  unfold compute_calibration_curve at hb
  obtain ⟨i, -, hbi⟩ := List.mem_map.mp hb
  by_cases hemp : (points.filter fun p => decide (in_bin i p)).isEmpty
  · rw [if_pos hemp] at hbi
    subst hbi
    simp at hc
  · rw [if_neg hemp] at hbi
    subst hbi
    rfl

/-- The diagnose tally equals the pair of specification-side signal counts,
for any bucket list whose deviations are the gap between prediction and
actual rate (as computed curves guarantee). -/
theorem diagnose_tally_eq (populated : List CalibrationBucket)
    (hwf : ∀ b ∈ populated, b.deviation = |b.mean_predicted - b.actual_rate|) :
    diagnose_tally populated
      = (spec_over_signals populated, spec_under_signals populated) := by
  unfold diagnose_tally
  suffices h : ∀ t : ℕ × ℕ, populated.foldl tally_step t
      = (t.1 + spec_over_signals populated, t.2 + spec_under_signals populated) by
    simpa using h (0, 0)
  induction populated with
  | nil =>
    intro t
    simp [spec_over_signals, spec_under_signals]
  | cons b rest ih =>
    have hb := hwf b (List.mem_cons_self _ _)
    have hrest : ∀ x ∈ rest, x.deviation = |x.mean_predicted - x.actual_rate| :=
      fun x hx => hwf x (List.mem_cons_of_mem _ hx)
    intro t
    rw [List.foldl_cons, ih hrest (tally_step t b)]
    have hover : ∀ hb' : over_signal b,
        spec_over_signals (b :: rest) = spec_over_signals rest + 1 := fun hb' => by
      simp [spec_over_signals, List.filter_cons, hb']
    have hover' : ∀ _ : ¬ over_signal b,
        spec_over_signals (b :: rest) = spec_over_signals rest := fun hb' => by
      simp [spec_over_signals, List.filter_cons, hb']
    have hunder : ∀ hb' : under_signal b,
        spec_under_signals (b :: rest) = spec_under_signals rest + 1 := fun hb' => by
      simp [spec_under_signals, List.filter_cons, hb']
    have hunder' : ∀ _ : ¬ under_signal b,
        spec_under_signals (b :: rest) = spec_under_signals rest := fun hb' => by
      simp [spec_under_signals, List.filter_cons, hb']
    unfold tally_step
    dsimp only
    by_cases h1 : b.deviation < 5/100
    · have hno : ¬ over_signal b := fun hs => absurd hs.1 (not_le.mpr h1)
      have hnu : ¬ under_signal b := fun hs => absurd hs.1 (not_le.mpr h1)
      rw [if_pos h1, hover' hno, hunder' hnu]
    · have hdev : 5/100 ≤ b.deviation := not_lt.mp h1
      have hne : b.mean_predicted ≠ b.actual_rate := by
        intro heq
        rw [hb, heq, sub_self, abs_zero] at hdev
        norm_num at hdev
      rw [if_neg h1]
      by_cases h2 : (b.bin_start + b.bin_end) / 2 < 3/10
      · rw [if_pos h2]
        by_cases h3 : b.mean_predicted < b.actual_rate
        · have hso : over_signal b := ⟨hdev, Or.inl ⟨h2, h3⟩⟩
          have hnu : ¬ under_signal b := by
            rintro ⟨-, ⟨-, hlt⟩ | ⟨hmid, -⟩⟩
            · exact absurd h3 (not_lt.mpr hlt.le)
            · linarith
          rw [if_pos h3, hover hso, hunder' hnu]
          simp [Prod.ext_iff]
          omega
        · have hlt : b.actual_rate < b.mean_predicted :=
            lt_of_le_of_ne (not_lt.mp h3) fun heq => hne heq.symm
          have hsu : under_signal b := ⟨hdev, Or.inl ⟨h2, hlt⟩⟩
          have hno : ¬ over_signal b := by
            rintro ⟨-, ⟨-, hlt'⟩ | ⟨hmid, -⟩⟩
            · exact absurd hlt' h3
            · linarith
          rw [if_neg h3, hover' hno, hunder hsu]
          simp [Prod.ext_iff]
          omega
      · rw [if_neg h2]
        by_cases h4 : 7/10 < (b.bin_start + b.bin_end) / 2
        · rw [if_pos h4]
          by_cases h5 : b.actual_rate < b.mean_predicted
          · have hso : over_signal b := ⟨hdev, Or.inr ⟨h4, h5⟩⟩
            have hnu : ¬ under_signal b := by
              rintro ⟨-, ⟨hmid, -⟩ | ⟨-, hlt⟩⟩
              · linarith
              · exact absurd h5 (not_lt.mpr hlt.le)
            rw [if_pos h5, hover hso, hunder' hnu]
            simp [Prod.ext_iff]
            omega
          · have hlt : b.mean_predicted < b.actual_rate :=
              lt_of_le_of_ne (not_lt.mp h5) hne
            have hsu : under_signal b := ⟨hdev, Or.inr ⟨h4, hlt⟩⟩
            have hno : ¬ over_signal b := by
              rintro ⟨-, ⟨hmid, -⟩ | ⟨-, hlt'⟩⟩
              · linarith
              · exact absurd hlt' h5
            rw [if_neg h5, hover' hno, hunder hsu]
            simp [Prod.ext_iff]
            omega
        · have hno : ¬ over_signal b := by
            rintro ⟨-, ⟨hmid, -⟩ | ⟨hmid, -⟩⟩
            · exact absurd hmid h2
            · exact absurd hmid h4
          have hnu : ¬ under_signal b := by
            rintro ⟨-, ⟨hmid, -⟩ | ⟨hmid, -⟩⟩
            · exact absurd hmid h2
            · exact absurd hmid h4
          rw [if_neg h4, hover' hno, hunder' hnu]

/-- C8: the report's diagnosis is InsufficientData exactly when there are
fewer than twenty points or fewer than three populated buckets; otherwise it
is OverConfident, UnderConfident or WellCalibrated according to the
specification's tally of signals over the significantly-deviating
populated buckets in the extreme bands. -/
theorem calibration_diagnosis_spec (points : List CalibrationPoint) :
    (report_diagnosis points = CalibrationDiagnosis.insufficientData ↔
      points.length < 20 ∨ (populated_buckets points).length < 3)
    ∧ (¬(points.length < 20 ∨ (populated_buckets points).length < 3) →
        report_diagnosis points =
          if spec_under_signals (populated_buckets points) + 1
              < spec_over_signals (populated_buckets points) then
            CalibrationDiagnosis.overConfident
          else if spec_over_signals (populated_buckets points) + 1
              < spec_under_signals (populated_buckets points) then
            CalibrationDiagnosis.underConfident
          else CalibrationDiagnosis.wellCalibrated) := by
  have hwf : ∀ b ∈ populated_buckets points,
      b.deviation = |b.mean_predicted - b.actual_rate| := by
    intro b hb
    have hb' : b ∈ (compute_calibration_curve points).filter
        (fun b => decide (3 ≤ b.count)) := hb
    have hcnt : 3 ≤ b.count := of_decide_eq_true (List.mem_filter.mp hb').2
    exact curve_bucket_deviation points b (List.mem_filter.mp hb').1 hcnt
  have hpop : ((compute_calibration_curve points).filter
      fun b => decide (3 ≤ b.count)) = populated_buckets points := rfl
  unfold report_diagnosis diagnose
  rw [hpop]
  dsimp only
  by_cases hemp : points.isEmpty
  · have hlen : points.length = 0 := List.isEmpty_iff_length_eq_zero.mp hemp
    rw [if_pos hemp]
    constructor
    · exact ⟨fun _ => Or.inl (by omega), fun _ => rfl⟩
    · intro hcontra
      exact absurd (Or.inl (by omega)) hcontra
  · rw [if_neg hemp]
    by_cases hins : (populated_buckets points).length < 3 ∨ points.length < 20
    · rw [if_pos hins]
      exact ⟨⟨fun _ => hins.symm, fun _ => rfl⟩,
        fun hcontra => absurd hins.symm hcontra⟩
    · rw [if_neg hins]
      rw [diagnose_tally_eq (populated_buckets points) hwf]
      dsimp only
      constructor
      · constructor
        · intro h
          split_ifs at h
        · intro h
          exact absurd (Or.symm h) hins
      · intro _
        rfl

/-- Witness for C8's tally clause at twenty-one points spread over three
populated buckets. -/
theorem calibration_diagnosis_spec_witness :
    report_diagnosis calib_pts =
      (if spec_under_signals (populated_buckets calib_pts) + 1
          < spec_over_signals (populated_buckets calib_pts) then
        CalibrationDiagnosis.overConfident
      else if spec_over_signals (populated_buckets calib_pts) + 1
          < spec_under_signals (populated_buckets calib_pts) then
        CalibrationDiagnosis.underConfident
      else CalibrationDiagnosis.wellCalibrated) :=
  (calibration_diagnosis_spec calib_pts).2 (by
    have hr : List.range 10 = [0, 1, 2, 3, 4, 5, 6, 7, 8, 9] := rfl
    have hpop : (populated_buckets calib_pts).length = 3 := by
      norm_num [populated_buckets, compute_calibration_curve, hr, calib_pts, in_bin,
        List.filter_cons, List.isEmpty_cons, List.isEmpty_nil]
      simp
    intro h
    rcases h with h | h
    · norm_num [calib_pts] at h
    · rw [hpop] at h
      norm_num at h)

set_option maxHeartbeats 1000000 in
/-- The backtest loop body never reads nor changes the state's start_time:
replacing it commutes with one step. -/
theorem bt_step_with_start (ecfg : EdgeConfig) (kcfg : KellyConfig) (rcfg : RiskConfig)
    (acc : BtAcc) (m : ResolvedMarket) (t : ℤ) :
    bt_step ecfg kcfg rcfg (acc.with_start t) m
      = (bt_step ecfg kcfg rcfg acc m).with_start t := by
  obtain ⟨⟨bk, tp, cc, pl, tw, tl, ac, ic, st, pk, su⟩, tlog, be, rt, bs, pk0, md, w, l⟩ := acc
  simp only [bt_step, BtAcc.with_start, AgentState.is_alive]
  dsimp only
  split_ifs <;>
    first
      | rfl
      | (cases backtest_size kcfg (bt_win_prob m) (bt_market_price m) bk <;>
          dsimp only <;> split_ifs <;> rfl)

/-- Replacing the start_time commutes with the whole backtest fold. -/
theorem foldl_bt_step_with_start (ecfg : EdgeConfig) (kcfg : KellyConfig)
    (rcfg : RiskConfig) (markets : List ResolvedMarket) :
    ∀ (acc : BtAcc) (t : ℤ),
      markets.foldl (bt_step ecfg kcfg rcfg) (acc.with_start t)
        = (markets.foldl (bt_step ecfg kcfg rcfg) acc).with_start t := by
  induction markets with
  | nil =>
    intro acc t
    rfl
  | cons m rest ih =>
    intro acc t
    rw [List.foldl_cons, List.foldl_cons, bt_step_with_start, ih]

/-- C9 as amended: two runs of the backtest on identical markets and initial
bankroll yield reports equal in every field except the wall-clock timestamp
on the initial balance-history entry — the only place Utc::now() reaches the
report. -/
theorem run_clock_independent (ecfg : EdgeConfig) (kcfg : KellyConfig)
    (rcfg : RiskConfig) (markets : List ResolvedMarket) (b : ℚ) (t₁ t₂ : ℤ) :
    (run ecfg kcfg rcfg markets b t₁).initial_bankroll
        = (run ecfg kcfg rcfg markets b t₂).initial_bankroll
    ∧ (run ecfg kcfg rcfg markets b t₁).final_bankroll
        = (run ecfg kcfg rcfg markets b t₂).final_bankroll
    ∧ (run ecfg kcfg rcfg markets b t₁).total_pnl
        = (run ecfg kcfg rcfg markets b t₂).total_pnl
    ∧ (run ecfg kcfg rcfg markets b t₁).return_pct
        = (run ecfg kcfg rcfg markets b t₂).return_pct
    ∧ (run ecfg kcfg rcfg markets b t₁).total_trades
        = (run ecfg kcfg rcfg markets b t₂).total_trades
    ∧ (run ecfg kcfg rcfg markets b t₁).wins = (run ecfg kcfg rcfg markets b t₂).wins
    ∧ (run ecfg kcfg rcfg markets b t₁).losses = (run ecfg kcfg rcfg markets b t₂).losses
    ∧ (run ecfg kcfg rcfg markets b t₁).win_rate
        = (run ecfg kcfg rcfg markets b t₂).win_rate
    ∧ (run ecfg kcfg rcfg markets b t₁).brier_score
        = (run ecfg kcfg rcfg markets b t₂).brier_score
    ∧ (run ecfg kcfg rcfg markets b t₁).sharpe = (run ecfg kcfg rcfg markets b t₂).sharpe
    ∧ (run ecfg kcfg rcfg markets b t₁).max_drawdown
        = (run ecfg kcfg rcfg markets b t₂).max_drawdown
    ∧ (run ecfg kcfg rcfg markets b t₁).max_drawdown_pct
        = (run ecfg kcfg rcfg markets b t₂).max_drawdown_pct
    ∧ (run ecfg kcfg rcfg markets b t₁).peak_bankroll
        = (run ecfg kcfg rcfg markets b t₂).peak_bankroll
    ∧ (run ecfg kcfg rcfg markets b t₁).trade_log
        = (run ecfg kcfg rcfg markets b t₂).trade_log
    ∧ (run ecfg kcfg rcfg markets b t₁).balance_history.tail
        = (run ecfg kcfg rcfg markets b t₂).balance_history.tail
    ∧ (run ecfg kcfg rcfg markets b t₁).balance_history.head? = some (t₁, b)
    ∧ (run ecfg kcfg rcfg markets b t₂).balance_history.head? = some (t₂, b) := by
  have hfold : ∀ t : ℤ, markets.foldl (bt_step ecfg kcfg rcfg)
      ⟨AgentState.new b t, [], [], [], 0, b, 0, 0, 0⟩
      = (markets.foldl (bt_step ecfg kcfg rcfg)
          ⟨AgentState.new b 0, [], [], [], 0, b, 0, 0, 0⟩).with_start t :=
    fun t => foldl_bt_step_with_start ecfg kcfg rcfg markets
      ⟨AgentState.new b 0, [], [], [], 0, b, 0, 0, 0⟩ t
  unfold run
  dsimp only
  rw [hfold t₁, hfold t₂]
  exact ⟨rfl, rfl, rfl, rfl, rfl, rfl, rfl, rfl, rfl, rfl, rfl, rfl, rfl, rfl,
    rfl, rfl, rfl⟩

/-- C9 counterexample: the claim as stated fails on the clock input — two
invocations on identical inputs at different instants differ in the initial
balance-history entry, so the reports are not identical. -/
theorem run_reports_differ_by_clock :
    run EdgeConfig.default KellyConfig.default RiskConfig.default [] 100 0
      ≠ run EdgeConfig.default KellyConfig.default RiskConfig.default [] 100 1 := by
  intro h
  have hb := congrArg BacktestReport.balance_history h
  norm_num [run] at hb

end Oracle
